import Mathlib

/-!
# Verification of the Nyx identity and file-relay service (`app.py`)

Shallow embedding of the single-file Flask/FastAPI application `app.py`:

* the MongoDB `users` collection is a list of documents with a fresh-id
  counter (`MongoDB`);
* the process-wide in-memory dicts `users = {}` and `files = {}` (lines
  26-27) are association lists inside the system state `Sys`;
* the filesystem under `UPLOAD_FOLDER` is an association list from path to
  content;
* `bcrypt` is idealized as a self-describing salted hash: `hashpw` prefixes
  the (caller-supplied, per-call random) salt and `checkpw` re-derives the
  salt from the stored hash and recomputes, exactly mirroring bcrypt's
  recompute-and-compare structure;
* PyJWT's `encode`/`decode` are modelled over an abstract MAC function
  `mac : secret -> payload -> signature`; `decode` recomputes the signature
  and rejects on mismatch.  The payloads produced by this program carry no
  `exp` claim, so PyJWT's expiry check is vacuous and is not modelled;
* `werkzeug.utils.secure_filename` is modelled by its algorithm on ASCII
  input (drop non-ASCII, path separators to spaces, whitespace runs joined
  by underscores, delete characters outside `[A-Za-z0-9_.-]`, strip leading
  and trailing dots and underscores).

Each endpoint (`signup`, `login`, `profile`, `send_file`, `received_files`)
is a function over `Sys`; request-shape validation performed by pydantic
(`SignupModel`: username at most 50 chars, password at least 8 chars) is
part of the endpoint, as FastAPI runs it before the handler body.
-/

/-- An HTTP error as raised by `HTTPException(status_code, detail)` or
returned as `(jsonify({"detail": ...}), status)`. -/
structure HTTPError where
  status : Nat
  detail : String
deriving DecidableEq, Repr

/-! ## Token Issuer/Verifier (`create_jwt` / `verify_jwt`, lines 70-84) -/

/-- A JWT: a JSON-object payload (association list of claims) together with
a signature over the payload.  Tampering with the encoded token so that the
signature no longer matches the payload is represented by a `Jwt` value
whose `sig` differs from `mac secret payload`. -/
structure Jwt where
  payload : List (String × String)
  sig : String
deriving DecidableEq, Repr

/-- `create_jwt(user_id)` (lines 70-75): the payload is the single-field
dict `{"user_id": user_id}`; the token is signed with the configured
secret.  The current time `_now` is passed explicitly to model the ambient
clock: the source body never reads it (it stores no `iat`/`exp` claim). -/
def create_jwt (mac : String → List (String × String) → String)
    (secret : String) (_now : Nat) (user_id : String) : Jwt :=
  let payload := [("user_id", user_id)]
  { payload := payload, sig := mac secret payload }

/-- `verify_jwt(token)` (lines 77-84): `jwt.decode` recomputes the
signature; a mismatch raises `InvalidTokenError`, surfaced as
`HTTPException(401, "Invalid token.")`.  The `ExpiredSignatureError` branch
is unreachable for tokens of this program (no `exp` claim). -/
def verify_jwt (mac : String → List (String × String) → String)
    (secret : String) (t : Jwt) : Except HTTPError (List (String × String)) :=
  if t.sig == mac secret t.payload then .ok t.payload
  else .error ⟨401, "Invalid token."⟩

/-! ## Password Hasher (`hash_password` / `verify_password`, lines 64-68) -/

/-- `bcrypt.hashpw(password, bcrypt.gensalt())` (line 65), idealized: the
output is self-describing (`salt ++ "$" ++ digest`) and the digest is an
injective function of the password.  The salt is the explicit randomness of
`gensalt()`; two calls of the hasher are two choices of `salt`. -/
def hash_password (salt : String) (password : String) : String :=
  salt ++ "$" ++ password

/-- The salt component embedded in a stored hash (everything before the
first `$`), as re-derived by `bcrypt.checkpw`. -/
def saltOf (hashed : String) : String :=
  ⟨hashed.data.takeWhile (fun c => c != '$')⟩

/-- `bcrypt.checkpw(plain, hashed)` (line 68): re-derive the salt from the
stored hash, recompute, and compare. -/
def verify_password (plain : String) (hashed : String) : Bool :=
  hashed == hash_password (saltOf hashed) plain

theorem hash_password_data (salt p : String) :
    (hash_password salt p).data = salt.data ++ '$' :: p.data := by
  simp [hash_password, String.data_append]

theorem takeWhile_append_stop {p : Char → Bool} (l₁ : List Char) (x : Char)
    (l₂ : List Char) (h₁ : ∀ a ∈ l₁, p a = true) (hx : p x = false) :
    (l₁ ++ x :: l₂).takeWhile p = l₁ := by
  induction l₁ with
  | nil => simp [List.takeWhile_cons, hx]
  | cons a l ih =>
    have ha : p a = true := h₁ a (List.mem_cons_self a l)
    rw [List.cons_append, List.takeWhile_cons, if_pos ha]
    exact congrArg (List.cons a) (ih (fun b hb => h₁ b (List.mem_cons_of_mem a hb)))

theorem saltOf_hash_password {salt : String} (p : String)
    (hs : '$' ∉ salt.data) : saltOf (hash_password salt p) = salt := by
  apply String.ext_iff.mpr
  show (hash_password salt p).data.takeWhile (fun c => c != '$') = salt.data
  rw [hash_password_data]
  exact takeWhile_append_stop salt.data '$' p.data
    (fun a ha => by
      simp only [bne_iff_ne, ne_eq, decide_eq_true_eq]
      intro hc; exact hs (hc ▸ ha))
    (by simp)

theorem verify_password_hash_password {salt : String} (p : String)
    (hs : '$' ∉ salt.data) :
    verify_password p (hash_password salt p) = true := by
  simp [verify_password, saltOf_hash_password p hs]

theorem verify_password_hash_password_ne {salt : String} (p other : String)
    (hs : '$' ∉ salt.data) (hne : other ≠ p) :
    verify_password other (hash_password salt p) = false := by
  simp only [verify_password, saltOf_hash_password p hs,
    beq_eq_false_iff_ne, ne_eq]
  intro h
  apply hne
  have hd := congrArg String.data h
  rw [hash_password_data, hash_password_data] at hd
  have := List.append_cancel_left hd
  simp only [List.cons.injEq, true_and] at this
  exact (String.ext_iff.mpr this.symm)

/-- Splitting a list at the first occurrence of a marker character is
unique when neither prefix contains the marker. -/
theorem append_marker_inj {a b c d : List Char}
    (ha : '$' ∉ a) (hb : '$' ∉ b)
    (h : a ++ '$' :: c = b ++ '$' :: d) : a = b ∧ c = d := by
  induction a generalizing b with
  | nil =>
    cases b with
    | nil => simpa using h
    | cons x xs =>
      exfalso
      simp only [List.nil_append, List.cons_append, List.cons.injEq] at h
      exact hb (h.1 ▸ List.mem_cons_self x xs)
  | cons y ys ih =>
    cases b with
    | nil =>
      exfalso
      simp only [List.cons_append, List.nil_append, List.cons.injEq] at h
      exact ha (h.1 ▸ List.mem_cons_self y ys)
    | cons x xs =>
      simp only [List.cons_append, List.cons.injEq] at h
      have hys : '$' ∉ ys := fun hm => ha (List.mem_cons_of_mem y hm)
      have hxs : '$' ∉ xs := fun hm => hb (List.mem_cons_of_mem x hm)
      have := ih hys hxs h.2
      exact ⟨by rw [h.1, this.1], this.2⟩

theorem hash_password_salt_inj {salt salt' : String} (p : String)
    (hs : '$' ∉ salt.data) (hs' : '$' ∉ salt'.data)
    (hne : salt ≠ salt') :
    hash_password salt p ≠ hash_password salt' p := by
  intro h
  have hd := congrArg String.data h
  rw [hash_password_data, hash_password_data] at hd
  exact hne (String.ext_iff.mpr (append_marker_inj hs hs' hd).1)

/-! ## Upload configuration and filename handling (lines 21-30, 169-171) -/

def UPLOAD_FOLDER : String := "uploads/"

def ALLOWED_EXTENSIONS : List String := ["txt", "pdf", "png", "jpg", "jpeg", "gif"]

/-- `filename.rsplit('.', 1)[1]`: the characters after the last dot. -/
def extAfterLastDot (l : List Char) : List Char :=
  (l.reverse.takeWhile (fun c => c != '.')).reverse

/-- `allowed_file` (lines 29-30): `'.' in filename and
filename.rsplit('.', 1)[1].lower() in ALLOWED_EXTENSIONS`. -/
def allowed_file (filename : String) : Bool :=
  filename.data.contains '.' &&
    ALLOWED_EXTENSIONS.contains ⟨(extAfterLastDot filename.data).map Char.toLower⟩

/-- Characters kept by werkzeug's `_filename_ascii_strip_re`
(`[^A-Za-z0-9_.-]` is deleted). -/
def keepChar (c : Char) : Bool :=
  c.isAlphanum || c = '_' || c = '.' || c = '-'

/-- Characters removed by the final `.strip("._")`. -/
def stripSet (c : Char) : Bool :=
  c = '.' || c = '_'

/-- `"_".join(s.split())` after the leading whitespace run has been
stripped: a whitespace run sets a pending-separator flag, and a single
underscore is emitted before the next word (so trailing whitespace emits
nothing). -/
def joinWordsGo : Bool → List Char → List Char
  | _, [] => []
  | pending, c :: cs =>
    if c.isWhitespace then joinWordsGo true cs
    else if pending then '_' :: c :: joinWordsGo false cs
    else c :: joinWordsGo false cs

/-- Python `"_".join(s.split())`: split on whitespace runs, drop empty
words, join with single underscores. -/
def joinWords (l : List Char) : List Char :=
  joinWordsGo false (l.dropWhile Char.isWhitespace)

/-- `werkzeug.utils.secure_filename`, on ASCII input (the NFKD
normalization step is the identity there): drop non-ASCII bytes, turn path
separators into spaces, join the whitespace-split words with underscores,
delete everything outside `[A-Za-z0-9_.-]`, and strip leading/trailing
dots and underscores. -/
def secure_filename (filename : String) : String :=
  let s1 := filename.data.filter (fun c => c.toNat < 128)
  let s2 := s1.map (fun c => if c = '/' then ' ' else c)
  let s3 := joinWords s2
  let s4 := s3.filter keepChar
  let s5 := s4.dropWhile stripSet
  ⟨(s5.reverse.dropWhile stripSet).reverse⟩

/-! ## System state -/

/-- A document of the MongoDB `users` collection (lines 129-132): the
`_id` assigned by `insert_one`, the username, and the bcrypt hash. -/
structure UserDoc where
  oid : Nat
  username : String
  hashed_password : String
deriving DecidableEq, Repr

/-- The MongoDB `users` collection together with the fresh-`ObjectId`
source used by `insert_one`. -/
structure MongoDB where
  nextId : Nat
  docs : List UserDoc
deriving DecidableEq, Repr

/-- `users_collection.find_one({"username": u})` (lines 125 and 138). -/
def find_one_username (db : MongoDB) (u : String) : Option UserDoc :=
  db.docs.find? (fun d => d.username == u)

/-- A delivered-file record appended to a recipient's mailbox
(lines 173-176). -/
structure FileRec where
  filename : String
  filepath : String
deriving DecidableEq, Repr

/-- An entry of the in-memory `users` dict: per-user mailbox state. -/
structure MemUser where
  files : List FileRec
deriving DecidableEq, Repr

/-- A multipart file upload: `request.files['file']`. -/
structure FilePart where
  filename : String
  content : String
deriving DecidableEq, Repr

/-- Whole-program state: the MongoDB collection, the two process-wide
in-memory dicts `users = {}` and `files = {}` (lines 26-27), and the
filesystem under `UPLOAD_FOLDER` (path to stored bytes). -/
structure Sys where
  db : MongoDB
  users : List (String × MemUser)
  filesDict : List (String × String)
  storage : List (String × String)
deriving DecidableEq, Repr

/-- The state at process start: empty collection, empty dicts, empty
storage root. -/
def initSys : Sys :=
  { db := { nextId := 0, docs := [] }, users := [], filesDict := [], storage := [] }

/-! ## Endpoints -/

structure SignupResp where
  message : String
  user_id : String
deriving DecidableEq, Repr

structure LoginResp where
  message : String
  token : Jwt
deriving DecidableEq, Repr

structure ProfileResp where
  username : String
deriving DecidableEq, Repr

/-- `POST /signup` (lines 123-134).  FastAPI first validates the pydantic
`SignupModel` (username at most 50 chars, password at least 8 chars) and
rejects ill-shaped requests with 422 before the handler runs; the handler
then rejects duplicate usernames with 400 and otherwise hashes the
password (with the fresh salt `salt` drawn by `bcrypt.gensalt()`) and
inserts the document, returning `str(result.inserted_id)`. -/
def signup (salt : String) (s : Sys) (username password : String) :
    Sys × Except HTTPError SignupResp :=
  if username.length > 50 || password.length < 8 then
    (s, .error ⟨422, "Unprocessable Entity"⟩)
  else
    match find_one_username s.db username with
    | some _ => (s, .error ⟨400, "Username is already taken."⟩)
    | none =>
      let doc : UserDoc := ⟨s.db.nextId, username, hash_password salt password⟩
      ({ s with db := { nextId := s.db.nextId + 1, docs := s.db.docs ++ [doc] } },
       .ok ⟨"User registered successfully", toString s.db.nextId⟩)

/-- `POST /login` (lines 136-142): `if not user or not
verify_password(...)` raises 401; otherwise the token is
`create_jwt(str(user["_id"]))`.  The state is read, never written. -/
def login (mac : String → List (String × String) → String) (secret : String)
    (now : Nat) (s : Sys) (username password : String) :
    Except HTTPError LoginResp :=
  match find_one_username s.db username with
  | none => .error ⟨401, "Invalid username or password."⟩
  | some u =>
    if verify_password password u.hashed_password then
      .ok ⟨"Login successful", create_jwt mac secret now (toString u.oid)⟩
    else
      .error ⟨401, "Invalid username or password."⟩

/-- `GET /profile` (lines 144-150): reads the `token` header and requires
it to be a key of the in-memory `users` dict (`if not token or token not
in users`); a missing or empty header is falsy.  On the success path it
returns `jsonify({"username": token})` - the header value itself, no id
and no password hash. -/
def profile (s : Sys) : Option String → Except HTTPError ProfileResp
  | none => .error ⟨401, "Unauthorized"⟩
  | some t =>
    if t == "" || (s.users.find? (fun kv => kv.fst == t)).isNone then
      .error ⟨401, "Unauthorized"⟩
    else
      .ok ⟨t⟩

/-- `users[recipient_username]["files"].append(record)` (lines 173-176). -/
def appendMailbox (us : List (String × MemUser)) (r : String) (rec : FileRec) :
    List (String × MemUser) :=
  us.map (fun kv => if kv.fst == r then (kv.fst, ⟨kv.snd.files ++ [rec]⟩) else kv)

/-- `POST /send_file` (lines 152-179), in the source's check order: token
header required to be a key of the in-memory `users` dict (401); form
field `recipient_username` required to be a key of `users` (400); a file
part must be present (400); its filename must be non-empty (400); the
extension must pass `allowed_file` (else 400 "File not allowed").  On
success the bytes are saved under
`os.path.join(UPLOAD_FOLDER, secure_filename(filename))` and a `FileRec`
is appended to the recipient's mailbox. -/
def send_file (s : Sys) (token recipient : Option String)
    (file : Option FilePart) : Sys × Except HTTPError String :=
  match token with
  | none => (s, .error ⟨401, "Unauthorized"⟩)
  | some t =>
    if t == "" || (s.users.find? (fun kv => kv.fst == t)).isNone then
      (s, .error ⟨401, "Unauthorized"⟩)
    else
      match recipient with
      | none => (s, .error ⟨400, "Recipient user not found"⟩)
      | some r =>
        if (s.users.find? (fun kv => kv.fst == r)).isNone then
          (s, .error ⟨400, "Recipient user not found"⟩)
        else
          match file with
          | none => (s, .error ⟨400, "No file part"⟩)
          | some f =>
            if f.filename == "" then
              (s, .error ⟨400, "No selected file"⟩)
            else if allowed_file f.filename then
              let filename := secure_filename f.filename
              let file_path := UPLOAD_FOLDER ++ filename
              ({ s with
                  storage := (file_path, f.content) :: s.storage,
                  users := appendMailbox s.users r ⟨filename, file_path⟩ },
               .ok "File sent successfully!")
            else
              (s, .error ⟨400, "File not allowed"⟩)

/-- `GET /received_files` (lines 181-188): same token gate as `profile`;
returns `users[token]["files"]`. -/
def received_files (s : Sys) : Option String → Except HTTPError (List FileRec)
  | none => .error ⟨401, "Unauthorized"⟩
  | some t =>
    if t == "" then
      .error ⟨401, "Unauthorized"⟩
    else
      match s.users.find? (fun kv => kv.fst == t) with
      | none => .error ⟨401, "Unauthorized"⟩
      | some kv => .ok kv.snd.files

/-! ## Reachability: the program's operations from the initial state -/

/-- One inbound request, with the nondeterministic inputs (bcrypt salt,
clock reading) made explicit. -/
inductive Request where
  | signupReq (salt username password : String)
  | loginReq (now : Nat) (username password : String)
  | profileReq (token : Option String)
  | sendReq (token recipient : Option String) (file : Option FilePart)
  | receivedReq (token : Option String)

/-- The state after serving one request.  `login`, `profile` and
`received_files` only read the state; `signup` writes the MongoDB
collection; `send_file` may write storage and the in-memory dict. -/
def applyReq (s : Sys) : Request → Sys
  | .signupReq salt u p => (signup salt s u p).1
  | .loginReq _ _ _ => s
  | .profileReq _ => s
  | .sendReq t r f => (send_file s t r f).1
  | .receivedReq _ => s

/-- States the process can be in: the initial state and anything a
sequence of requests produces. -/
inductive Reachable : Sys → Prop where
  | init : Reachable initSys
  | step (s : Sys) (r : Request) : Reachable s → Reachable (applyReq s r)

/-! ## State-preservation lemmas and the in-memory-dict invariant -/

theorem signup_mem_invariant (salt : String) (s : Sys) (u p : String) :
    (signup salt s u p).1.users = s.users ∧
    (signup salt s u p).1.storage = s.storage ∧
    (signup salt s u p).1.filesDict = s.filesDict := by
  unfold signup
  split
  · exact ⟨rfl, rfl, rfl⟩
  · split <;> exact ⟨rfl, rfl, rfl⟩

theorem send_file_users_nil (s : Sys) (hs : s.users = [])
    (t r : Option String) (f : Option FilePart) :
    send_file s t r f = (s, .error ⟨401, "Unauthorized"⟩) := by
  cases t with
  | none => rfl
  | some tv => simp [send_file, hs]

theorem profile_users_nil (s : Sys) (hs : s.users = []) (t : Option String) :
    profile s t = .error ⟨401, "Unauthorized"⟩ := by
  cases t with
  | none => rfl
  | some tv => simp [profile, hs]

theorem received_files_users_nil (s : Sys) (hs : s.users = [])
    (t : Option String) :
    received_files s t = .error ⟨401, "Unauthorized"⟩ := by
  cases t with
  | none => rfl
  | some tv => simp [received_files, hs]

/-- Nothing in the program ever writes the in-memory `users`/`files` dicts
or the storage root: `signup`/`login` touch only MongoDB, and every
authenticated Flask handler requires its token to be a key of the empty
`users` dict before writing anything. -/
theorem reachable_mem_empty {s : Sys} (h : Reachable s) :
    s.users = [] ∧ s.storage = [] ∧ s.filesDict = [] := by
  induction h with
  | init => exact ⟨rfl, rfl, rfl⟩
  | step s r _ ih =>
    cases r with
    | signupReq salt u p =>
      have h3 := signup_mem_invariant salt s u p
      exact ⟨h3.1.trans ih.1, h3.2.1.trans ih.2.1, h3.2.2.trans ih.2.2⟩
    | loginReq now u p => exact ih
    | profileReq t => exact ih
    | sendReq t r f =>
      have hsend := send_file_users_nil s ih.1 t r f
      simpa [applyReq, hsend] using ih
    | receivedReq t => exact ih

/-! ## Character-level facts for the sanitizer -/

theorem toLower_cases (c : Char) :
    Char.toLower c = c ∨ (65 ≤ c.toNat ∧ c.toNat ≤ 90) := by
  unfold Char.toLower
  by_cases h : c.toNat ≥ 65 ∧ c.toNat ≤ 90
  · right; exact h
  · left; simp [h]

/-- A character whose lowercasing is the last letter of one of the allowed
extensions is an ASCII letter: it survives every stage of
`secure_filename`. -/
theorem good_of_toLower (c : Char)
    (h : c.toLower = 't' ∨ c.toLower = 'f' ∨ c.toLower = 'g') :
    c.toNat < 128 ∧ c ≠ '/' ∧ c.isWhitespace = false ∧
      keepChar c = true ∧ stripSet c = false := by
  rcases toLower_cases c with hc | ⟨h1, h2⟩
  · rw [hc] at h
    rcases h with h | h | h <;> subst h <;>
      exact ⟨by decide, by decide, by decide, by decide, by decide⟩
  · refine ⟨by omega, ?_, ?_, ?_, ?_⟩
    · intro hq; subst hq; exact absurd h1 (by decide)
    · by_cases hw : c.isWhitespace = true
      · exfalso
        simp only [Char.isWhitespace, Bool.or_eq_true, decide_eq_true_eq] at hw
        rcases hw with ((h' | h') | h') | h' <;> subst h' <;> exact absurd h1 (by decide)
      · simpa using hw
    · have hu : c.isUpper = true := by
        simp only [Char.isUpper, Bool.and_eq_true, decide_eq_true_eq]
        exact ⟨h1, h2⟩
      simp [keepChar, Char.isAlphanum, Char.isAlpha, hu]
    · simp only [stripSet, Bool.or_eq_false_iff, decide_eq_false_iff_not]
      constructor
      · intro hq; subst hq; exact absurd h1 (by decide)
      · intro hq; subst hq; exact absurd h2 (by decide)

/-! ## Tracking the final character through the sanitizer -/

/-- The list ends in the character `c`. -/
def LastIs (l : List Char) (c : Char) : Prop :=
  ∃ xs, l = xs ++ [c]

theorem lastIs_ne_nil {l : List Char} {c : Char} (h : LastIs l c) : l ≠ [] := by
  obtain ⟨xs, rfl⟩ := h
  simp

theorem lastIs_cons_elim {a c : Char} {l : List Char} (h : LastIs (a :: l) c) :
    (l = [] ∧ a = c) ∨ LastIs l c := by
  obtain ⟨xs, hx⟩ := h
  cases xs with
  | nil =>
    simp only [List.nil_append, List.cons.injEq] at hx
    exact Or.inl ⟨hx.2, hx.1⟩
  | cons y ys =>
    simp only [List.cons_append, List.cons.injEq] at hx
    exact Or.inr ⟨ys, hx.2⟩

theorem lastIs_filter {l : List Char} {c : Char} {p : Char → Bool}
    (h : LastIs l c) (hp : p c = true) : LastIs (l.filter p) c := by
  obtain ⟨xs, rfl⟩ := h
  exact ⟨xs.filter p, by simp [List.filter_append, hp]⟩

theorem lastIs_map {l : List Char} {c : Char} (g : Char → Char)
    (h : LastIs l c) : LastIs (l.map g) (g c) := by
  obtain ⟨xs, rfl⟩ := h
  exact ⟨xs.map g, by simp⟩

theorem lastIs_dropWhile {l : List Char} {c : Char} {q : Char → Bool}
    (h : LastIs l c) (hq : q c = false) : LastIs (l.dropWhile q) c := by
  obtain ⟨xs, rfl⟩ := h
  induction xs with
  | nil => exact ⟨[], by simp [List.dropWhile_cons, hq]⟩
  | cons a as ih =>
    by_cases ha : q a = true
    · simpa [List.dropWhile_cons, ha] using ih
    · exact ⟨a :: as, by simp [List.dropWhile_cons, ha]⟩

theorem lastIs_joinWordsGo {l : List Char} {c : Char} :
    ∀ pending : Bool, LastIs l c → c.isWhitespace = false →
      LastIs (joinWordsGo pending l) c := by
  induction l with
  | nil =>
    intro pending hlast _
    exact absurd rfl (lastIs_ne_nil hlast)
  | cons a cs ih =>
    intro pending hlast hc
    rcases lastIs_cons_elim hlast with ⟨hnil, rfl⟩ | htail
    · subst hnil
      rw [joinWordsGo, if_neg (by simp [hc])]
      cases pending with
      | true => exact ⟨['_'], by simp [joinWordsGo]⟩
      | false => exact ⟨[], by simp [joinWordsGo]⟩
    · by_cases ha : a.isWhitespace = true
      · rw [joinWordsGo, if_pos ha]
        exact ih true htail hc
      · rw [joinWordsGo, if_neg ha]
        obtain ⟨ys, hys⟩ := ih false htail hc
        cases pending with
        | true => exact ⟨'_' :: a :: ys, by simp [hys]⟩
        | false => exact ⟨a :: ys, by simp [hys]⟩

theorem lastIs_joinWords {l : List Char} {c : Char} (h : LastIs l c)
    (hc : c.isWhitespace = false) : LastIs (joinWords l) c :=
  lastIs_joinWordsGo false (lastIs_dropWhile h hc) hc

/-- The extension component is a suffix of the filename. -/
theorem extAfterLastDot_suffix (l : List Char) :
    ∃ pre, l = pre ++ extAfterLastDot l := by
  refine ⟨(l.reverse.dropWhile (fun c => c != '.')).reverse, ?_⟩
  unfold extAfterLastDot
  conv_lhs => rw [← List.reverse_reverse l,
    ← List.takeWhile_append_dropWhile (p := fun c => c != '.') (l := l.reverse)]
  rw [List.reverse_append]

theorem lastIs_rstrip {l : List Char} {c : Char} (h : LastIs l c)
    (hc : stripSet c = false) :
    LastIs ((l.reverse.dropWhile stripSet).reverse) c := by
  obtain ⟨xs, rfl⟩ := h
  refine ⟨xs, ?_⟩
  simp [List.reverse_append, List.dropWhile_cons, hc]

theorem last_of_map_eq {ext L : List Char} {d : Char}
    (h : ext.map Char.toLower = L ++ [d]) :
    ∃ ys ℓ, ext = ys ++ [ℓ] ∧ Char.toLower ℓ = d := by
  rcases List.eq_nil_or_concat ext with rfl | ⟨ys, ℓ, rfl⟩
  · simp at h
  · refine ⟨ys, ℓ, by simp [List.concat_eq_append], ?_⟩
    rw [List.concat_eq_append, List.map_append] at h
    simp only [List.map_cons, List.map_nil] at h
    have hg := congrArg List.getLast? h
    rw [List.getLast?_concat, List.getLast?_concat] at hg
    exact Option.some.inj hg

/-- Under the `allowed_file` guard the sanitized filename is never empty:
the final letter of the allowed extension survives every stage of
`secure_filename`. -/
theorem secure_filename_ne_empty {fn : String} (h : allowed_file fn = true) :
    secure_filename fn ≠ "" := by
  unfold allowed_file at h
  rw [Bool.and_eq_true] at h
  obtain ⟨-, hctn⟩ := h
  rw [List.contains_eq_any_beq] at hctn
  simp only [ALLOWED_EXTENSIONS, List.any_cons, List.any_nil, Bool.or_eq_true,
    beq_iff_eq, Bool.or_false] at hctn
  have hex : ∃ ys ℓ, extAfterLastDot fn.data = ys ++ [ℓ] ∧
      (Char.toLower ℓ = 't' ∨ Char.toLower ℓ = 'f' ∨ Char.toLower ℓ = 'g') := by
    rcases hctn with hd | hd | hd | hd | hd | hd
    · obtain ⟨ys, ℓ, hy, hl⟩ := last_of_map_eq (L := ['t', 'x']) (d := 't')
        (congrArg String.data hd)
      exact ⟨ys, ℓ, hy, Or.inl hl⟩
    · obtain ⟨ys, ℓ, hy, hl⟩ := last_of_map_eq (L := ['p', 'd']) (d := 'f')
        (congrArg String.data hd)
      exact ⟨ys, ℓ, hy, Or.inr (Or.inl hl)⟩
    · obtain ⟨ys, ℓ, hy, hl⟩ := last_of_map_eq (L := ['p', 'n']) (d := 'g')
        (congrArg String.data hd)
      exact ⟨ys, ℓ, hy, Or.inr (Or.inr hl)⟩
    · obtain ⟨ys, ℓ, hy, hl⟩ := last_of_map_eq (L := ['j', 'p']) (d := 'g')
        (congrArg String.data hd)
      exact ⟨ys, ℓ, hy, Or.inr (Or.inr hl)⟩
    · obtain ⟨ys, ℓ, hy, hl⟩ := last_of_map_eq (L := ['j', 'p', 'e']) (d := 'g')
        (congrArg String.data hd)
      exact ⟨ys, ℓ, hy, Or.inr (Or.inr hl)⟩
    · obtain ⟨ys, ℓ, hy, hl⟩ := last_of_map_eq (L := ['g', 'i']) (d := 'f')
        (congrArg String.data hd)
      exact ⟨ys, ℓ, hy, Or.inr (Or.inl hl)⟩
  obtain ⟨ys, ℓ, hys, hl3⟩ := hex
  obtain ⟨hascii, hslash, hws, hkeep, hstrip⟩ := good_of_toLower ℓ hl3
  obtain ⟨pre, hpre⟩ := extAfterLastDot_suffix fn.data
  have h0 : LastIs fn.data ℓ := ⟨pre ++ ys, by rw [hpre, hys, List.append_assoc]⟩
  have h1 : LastIs (fn.data.filter (fun c => c.toNat < 128)) ℓ :=
    lastIs_filter h0 (by simpa using hascii)
  have h2 : LastIs ((fn.data.filter (fun c => c.toNat < 128)).map
      (fun c => if c = '/' then ' ' else c)) ℓ := by
    have hm := lastIs_map (fun c => if c = '/' then ' ' else c) h1
    simpa [hslash] using hm
  have h3 : LastIs (joinWords ((fn.data.filter (fun c => c.toNat < 128)).map
      (fun c => if c = '/' then ' ' else c))) ℓ := lastIs_joinWords h2 hws
  have h4 := lastIs_filter h3 hkeep
  have h5 := lastIs_dropWhile h4 hstrip
  have h6 := lastIs_rstrip h5 hstrip
  intro hc
  exact lastIs_ne_nil h6 (String.ext_iff.mp hc)

/-! ## Concrete fixtures used by witnesses and counterexamples -/

/-- A concrete MAC function standing in for HMAC in closed statements. -/
def demoMac : String → List (String × String) → String :=
  fun _ _ => "sig"

/-- The state right after `signup("alice", "password123")` from the initial
state (salt `"s1"` drawn by `gensalt`). -/
def aliceSys : Sys :=
  (signup "s1" initSys "alice" "password123").1

/-- A hypothetical state whose in-memory `users` dict has two registered
keys; unreachable in the running program, used to exercise the Flask
handlers' own logic. -/
def relaySys : Sys :=
  { db := { nextId := 0, docs := [] },
    users := [("alice", ⟨[]⟩), ("bob", ⟨[]⟩)],
    filesDict := [], storage := [] }

/-- The status code of an error response, if the response is an error. -/
def errStatus {α : Type} : Except HTTPError α → Option Nat
  | .error e => some e.status
  | .ok _ => none

/-- Number of credential-store records holding a given username. -/
def usernameCount (db : MongoDB) (u : String) : Nat :=
  db.docs.countP (fun d => d.username == u)

/-! ## Claims -/

/-- Claim C1: verifying a token issued for a user id returns a payload
whose `user_id` equals that id, and a token whose signature does not match
the MAC of its payload is rejected with 401 "Invalid token." rather than
returning an identity. -/
theorem jwt_round_trip_and_tamper
    (mac : String → List (String × String) → String)
    (secret : String) (now : Nat) (uid : String) :
    verify_jwt mac secret (create_jwt mac secret now uid) =
      .ok [("user_id", uid)] ∧
    ∀ t : Jwt, t.sig ≠ mac secret t.payload →
      verify_jwt mac secret t = .error ⟨401, "Invalid token."⟩ := by
  constructor
  · simp [create_jwt, verify_jwt]
  · intro t ht
    simp [verify_jwt, beq_iff_eq, ht]

/-- Witness for C1 at a concrete MAC, secret, user id and tampered
token. -/
theorem jwt_round_trip_and_tamper_witness :
    verify_jwt (fun _ _ => "MAC") "k" (create_jwt (fun _ _ => "MAC") "k" 0 "42")
      = .ok [("user_id", "42")] ∧
    verify_jwt (fun _ _ => "MAC") "k" ⟨[("user_id", "42")], "TAMPERED"⟩
      = .error ⟨401, "Invalid token."⟩ :=
  ⟨(jwt_round_trip_and_tamper (fun _ _ => "MAC") "k" 0 "42").1,
   (jwt_round_trip_and_tamper (fun _ _ => "MAC") "k" 0 "42").2
     ⟨[("user_id", "42")], "TAMPERED"⟩ (by decide)⟩

/-- Claim C9: password hashing round-trips (`verify(p, hash(p)) = true`),
rejects any other password (absolutely, in the idealized injective model),
and two calls with distinct salts - the per-call randomness of
`bcrypt.gensalt()` - produce byte-for-byte different hash tokens. -/
theorem hash_verify_round_trip (salt salt' p other : String)
    (hs : '$' ∉ salt.data) (hs' : '$' ∉ salt'.data) :
    verify_password p (hash_password salt p) = true ∧
    (other ≠ p → verify_password other (hash_password salt p) = false) ∧
    (salt ≠ salt' → hash_password salt p ≠ hash_password salt' p) :=
  ⟨verify_password_hash_password p hs,
   fun hne => verify_password_hash_password_ne p other hs hne,
   fun hne => hash_password_salt_inj p hs hs' hne⟩

/-- Witness for C9 at concrete salts and passwords. -/
theorem hash_verify_round_trip_witness :
    verify_password "password123" (hash_password "s1" "password123") = true ∧
    verify_password "wrongpass" (hash_password "s1" "password123") = false ∧
    hash_password "s1" "password123" ≠ hash_password "s2" "password123" := by
  have h := hash_verify_round_trip "s1" "s2" "password123" "wrongpass"
    (by decide) (by decide)
  exact ⟨h.1, h.2.1 (by decide), h.2.2 (by decide)⟩

/-- Claim C6 counterexample: the payload of an issued token has exactly
one field, `user_id` - there is no issuance-time (`iat`/`exp`) claim, so
the token does not "encode the issuance time" and verification can never
fail with Expired. -/
theorem create_jwt_no_issuance_time_cex :
    ((create_jwt demoMac "secret" 7 "u1").payload.map Prod.fst)
      = ["user_id"] := rfl

/-- Claim C6 (amended): the token is a pure function of the user id and
the configured secret alone - it is independent of the current time - and
its payload encodes only the user id. -/
theorem create_jwt_pure_and_only_user_id
    (mac : String → List (String × String) → String)
    (secret uid : String) (t₁ t₂ : Nat) :
    create_jwt mac secret t₁ uid = create_jwt mac secret t₂ uid ∧
    (create_jwt mac secret t₁ uid).payload = [("user_id", uid)] :=
  ⟨rfl, rfl⟩

/-- Claim C5: `login` fails if and only if the username is absent from the
credential store or the password does not verify against the stored hash;
and every failure is the single 401 response "Invalid username or
password.", so the two causes are indistinguishable and no token is
issued. -/
theorem login_invalid_iff
    (mac : String → List (String × String) → String)
    (secret : String) (now : Nat) (s : Sys) (u p : String) :
    (login mac secret now s u p =
        .error ⟨401, "Invalid username or password."⟩ ↔
      (find_one_username s.db u = none ∨
        ∃ d, find_one_username s.db u = some d ∧
          verify_password p d.hashed_password = false)) ∧
    ∀ e, login mac secret now s u p = .error e →
      e = ⟨401, "Invalid username or password."⟩ := by
  cases hf : find_one_username s.db u with
  | none =>
    have hlog : login mac secret now s u p =
        .error ⟨401, "Invalid username or password."⟩ := by
      simp [login, hf]
    constructor
    · simp [hlog, hf]
    · intro e he
      rw [hlog] at he
      exact (Except.error.inj he).symm
  | some d =>
    by_cases hv : verify_password p d.hashed_password = true
    · have hlog : login mac secret now s u p =
          .ok ⟨"Login successful", create_jwt mac secret now (toString d.oid)⟩ := by
        simp [login, hf, hv]
      constructor
      · simp [hlog, hf, hv]
      · intro e he
        rw [hlog] at he
        exact absurd he (by simp)
    · have hv' : verify_password p d.hashed_password = false := by
        simpa using hv
      have hlog : login mac secret now s u p =
          .error ⟨401, "Invalid username or password."⟩ := by
        simp [login, hf, hv']
      constructor
      · simp [hlog, hf, hv']
      · intro e he
        rw [hlog] at he
        exact (Except.error.inj he).symm

/-- Witness for C5: with only alice registered, a wrong password and an
unknown username both produce exactly the 401 "Invalid username or
password." response. -/
theorem login_invalid_iff_witness :
    login demoMac "secret" 0 aliceSys "alice" "wrongpass" =
      .error ⟨401, "Invalid username or password."⟩ ∧
    login demoMac "secret" 0 aliceSys "mallory" "password123" =
      .error ⟨401, "Invalid username or password."⟩ := by
  constructor
  · exact (login_invalid_iff demoMac "secret" 0 aliceSys "alice" "wrongpass").1.mpr
      (Or.inr ⟨⟨0, "alice", "s1$password123"⟩, by decide, by decide⟩)
  · exact (login_invalid_iff demoMac "secret" 0 aliceSys "mallory" "password123").1.mpr
      (Or.inl (by decide))

/-- Claim C2: a well-shaped signup (username not yet present, at most 50
chars; password at least 8 chars) succeeds and returns a user id, and a
subsequent login with the same credentials succeeds with a token that
verifies to exactly that user id. -/
theorem signup_then_login_succeeds
    (mac : String → List (String × String) → String)
    (secret salt : String) (now : Nat) (s : Sys) (u p : String)
    (hfree : find_one_username s.db u = none)
    (hu : u.length ≤ 50) (hp : 8 ≤ p.length)
    (hsalt : '$' ∉ salt.data) :
    ∃ s' uid,
      signup salt s u p = (s', .ok ⟨"User registered successfully", uid⟩) ∧
      login mac secret now s' u p =
        .ok ⟨"Login successful", create_jwt mac secret now uid⟩ ∧
      verify_jwt mac secret (create_jwt mac secret now uid) =
        .ok [("user_id", uid)] := by
  have h50 : ¬(u.length > 50) := by omega
  have h8 : ¬(p.length < 8) := by omega
  refine ⟨{ s with db := ⟨s.db.nextId + 1,
      s.db.docs ++ [⟨s.db.nextId, u, hash_password salt p⟩]⟩ },
    toString s.db.nextId, ?_, ?_, ?_⟩
  · simp [signup, h50, h8, hfree]
  · have hfind : find_one_username
        ⟨s.db.nextId + 1,
          s.db.docs ++ [⟨s.db.nextId, u, hash_password salt p⟩]⟩ u =
        some ⟨s.db.nextId, u, hash_password salt p⟩ := by
      unfold find_one_username at hfree ⊢
      rw [List.find?_append, hfree, Option.none_or]
      simp
    simp [login, hfind, verify_password_hash_password p hsalt]
  · simp [create_jwt, verify_jwt]

/-- Witness for C2: the concrete scenario `signup("alice","password123")`
then `login("alice","password123")` from the empty store, with the token
verifying to the assigned id `"0"`. -/
theorem signup_then_login_succeeds_witness :
    signup "s1" initSys "alice" "password123" =
      (aliceSys, .ok ⟨"User registered successfully", "0"⟩) ∧
    login demoMac "secret" 0 aliceSys "alice" "password123" =
      .ok ⟨"Login successful", create_jwt demoMac "secret" 0 "0"⟩ ∧
    verify_jwt demoMac "secret" (create_jwt demoMac "secret" 0 "0") =
      .ok [("user_id", "0")] := by
  obtain ⟨s', uid, h1, h2, h3⟩ := signup_then_login_succeeds demoMac "secret"
    "s1" 0 initSys "alice" "password123" rfl (by decide) (by decide) (by decide)
  have heq : (s', (Except.ok ⟨"User registered successfully", uid⟩ :
      Except HTTPError SignupResp)) =
      (aliceSys, .ok ⟨"User registered successfully", "0"⟩) :=
    h1.symm.trans rfl
  simp only [Prod.mk.injEq, Except.ok.injEq, SignupResp.mk.injEq, true_and] at heq
  obtain ⟨hs', huid⟩ := heq
  subst hs'
  subst huid
  exact ⟨h1, h2, h3⟩

/-- Claim C3: signing up a username that already has exactly one record in
the credential store (with a well-shaped request) fails with 400 "Username
is already taken.", leaves the state unchanged, and the record count for
that username remains exactly one. -/
theorem signup_duplicate_rejected (salt : String) (s : Sys) (u p : String)
    (hu : u.length ≤ 50) (hp : 8 ≤ p.length)
    (hcount : usernameCount s.db u = 1) :
    signup salt s u p = (s, .error ⟨400, "Username is already taken."⟩) ∧
    usernameCount (signup salt s u p).1.db u = 1 := by
  have h50 : ¬(u.length > 50) := by omega
  have h8 : ¬(p.length < 8) := by omega
  have hpos : 0 < s.db.docs.countP (fun d => d.username == u) := by
    unfold usernameCount at hcount
    omega
  have hsome : (find_one_username s.db u).isSome := by
    unfold find_one_username
    rw [List.find?_isSome]
    exact List.countP_pos_iff.mp hpos
  obtain ⟨d, hd⟩ := Option.isSome_iff_exists.mp hsome
  have heq : signup salt s u p =
      (s, .error ⟨400, "Username is already taken."⟩) := by
    simp [signup, h50, h8, hd]
  refine ⟨heq, ?_⟩
  rw [heq]
  exact hcount

/-- Witness for C3: re-registering alice (one existing record) is rejected
and her record count stays one. -/
theorem signup_duplicate_rejected_witness :
    signup "s2" aliceSys "alice" "password456" =
      (aliceSys, .error ⟨400, "Username is already taken."⟩) ∧
    usernameCount (signup "s2" aliceSys "alice" "password456").1.db
      "alice" = 1 :=
  signup_duplicate_rejected "s2" aliceSys "alice" "password456"
    (by decide) (by decide) (by decide)

/-- Claim C4 (code-bug evidence): after alice registers and can log in (a
valid verifiable token exists for her), the `profile` endpoint still
answers 401 Unauthorized to every request - with any token header,
including her freshly issued one - because it checks the raw header
against the never-populated in-memory `users` dict and never calls
`verify_jwt`.  Missing or invalid tokens also get 401, as claimed. -/
theorem profile_unauthorized_even_with_valid_token :
    (∃ r, login demoMac "secret" 0 aliceSys "alice" "password123" = .ok r) ∧
    ∀ raw : Option String, profile aliceSys raw =
      .error ⟨401, "Unauthorized"⟩ := by
  constructor
  · exact ⟨_, rfl⟩
  · intro raw
    exact profile_users_nil aliceSys rfl raw

/-- Claim C10: in every reachable state the in-memory `users` dict (and
with it every mailbox) is empty and the storage root was never written;
consequently `profile`, `send_file` and `received_files` answer 401
Unauthorized to every request - so no `FileRec` is ever appended to any
mailbox and `send_file` never changes the state. -/
theorem users_dict_always_empty {s : Sys} (h : Reachable s) :
    s.users = [] ∧ s.storage = [] ∧
    (∀ t, profile s t = .error ⟨401, "Unauthorized"⟩) ∧
    (∀ t r f, send_file s t r f = (s, .error ⟨401, "Unauthorized"⟩)) ∧
    (∀ t, received_files s t = .error ⟨401, "Unauthorized"⟩) := by
  obtain ⟨hu, hst, -⟩ := reachable_mem_empty h
  exact ⟨hu, hst, fun t => profile_users_nil s hu t,
    fun t r f => send_file_users_nil s hu t r f,
    fun t => received_files_users_nil s hu t⟩

/-- Witness for C10 at the reachable state following alice's signup. -/
theorem users_dict_always_empty_witness :
    aliceSys.users = [] ∧
    profile aliceSys (some "alice") = .error ⟨401, "Unauthorized"⟩ ∧
    send_file aliceSys (some "alice") (some "bob") (some ⟨"notes.txt", "hi"⟩) =
      (aliceSys, .error ⟨401, "Unauthorized"⟩) ∧
    received_files aliceSys (some "alice") = .error ⟨401, "Unauthorized"⟩ := by
  have hr : Reachable aliceSys :=
    Reachable.step initSys (Request.signupReq "s1" "alice" "password123")
      Reachable.init
  have h := users_dict_always_empty hr
  exact ⟨h.1, h.2.2.1 (some "alice"),
    h.2.2.2.1 (some "alice") (some "bob") (some ⟨"notes.txt", "hi"⟩),
    h.2.2.2.2 (some "alice")⟩

/-- Claim C7 counterexample: a send request carrying the disallowed
extension `.exe` but no valid token is rejected with status 401, not with
a 400 error as the claim states (the authentication check runs first). -/
theorem send_file_disallowed_ext_cex :
    errStatus (send_file initSys (some "tok") (some "bob")
      (some ⟨"virus.exe", "MZ"⟩)).2 = some 401 := rfl

/-- Claim C7 (amended): a send request with a disallowed extension never
changes the state - no bytes are written and no mailbox record appended,
whichever check rejects it - and when it passes the earlier
authentication, recipient and file-presence checks it is rejected with
400 "File not allowed". -/
theorem send_file_disallowed_ext_rejected (s : Sys) (tok rcp : Option String)
    (f : FilePart) (hext : allowed_file f.filename = false) :
    (send_file s tok rcp (some f)).1 = s ∧
    (∀ t r, tok = some t → (t == "") = false →
      (s.users.find? (fun kv => kv.fst == t)).isNone = false →
      rcp = some r →
      (s.users.find? (fun kv => kv.fst == r)).isNone = false →
      (f.filename == "") = false →
      (send_file s tok rcp (some f)).2 = .error ⟨400, "File not allowed"⟩) := by
  constructor
  · cases tok with
    | none => rfl
    | some t =>
      by_cases h1 : (t == "" || (s.users.find? (fun kv => kv.fst == t)).isNone)
          = true
      · simp [send_file, h1]
      · cases rcp with
        | none => simp [send_file, h1]
        | some r =>
          by_cases h2 : (s.users.find? (fun kv => kv.fst == r)).isNone = true
          · simp [send_file, h1, h2]
          · by_cases h3 : (f.filename == "") = true
            · simp [send_file, h1, h2, h3]
            · simp [send_file, h1, h2, h3, hext]
  · intro t r htok ht hfind hrcp hr hfn
    subst htok
    subst hrcp
    simp [send_file, ht, hfind, hr, hfn, hext]

/-- Witness for C7's amended theorem on a state whose dict contains alice
and bob: the `.exe` upload is refused with 400 and the state is
unchanged. -/
theorem send_file_disallowed_ext_rejected_witness :
    (send_file relaySys (some "alice") (some "bob")
      (some ⟨"virus.exe", "MZ"⟩)).1 = relaySys ∧
    (send_file relaySys (some "alice") (some "bob")
      (some ⟨"virus.exe", "MZ"⟩)).2 = .error ⟨400, "File not allowed"⟩ := by
  have h := send_file_disallowed_ext_rejected relaySys (some "alice")
    (some "bob") ⟨"virus.exe", "MZ"⟩ (by decide)
  exact ⟨h.1, h.2 "alice" "bob" rfl (by decide) (by decide) rfl (by decide)
    (by decide)⟩

/-- Claim C8: filenames are sanitized before the storage location is
derived - every entry `send_file` adds to storage sits at
`UPLOAD_FOLDER ++ secure_filename(original name)` - and under the
`allowed_file` guard (which any request reaching the sanitizer has passed)
the sanitized name is provably non-empty, so the
"sanitization yields an empty name" failure case is vacuous: no storage
location is ever derived from an empty sanitized name. -/
theorem sanitize_before_storage :
    (∀ fn : String, allowed_file fn = true → secure_filename fn ≠ "") ∧
    (∀ (s : Sys) (tok rcp : Option String) (file : Option FilePart) e,
      e ∈ (send_file s tok rcp file).1.storage →
      e ∈ s.storage ∨ ∃ f, file = some f ∧ allowed_file f.filename = true ∧
        e.1 = UPLOAD_FOLDER ++ secure_filename f.filename) := by
  constructor
  · exact fun fn h => secure_filename_ne_empty h
  · intro s tok rcp file e he
    cases tok with
    | none => exact Or.inl he
    | some t =>
      by_cases h1 : (t == "" || (s.users.find? (fun kv => kv.fst == t)).isNone)
          = true
      · rw [show (send_file s (some t) rcp file).1 = s by simp [send_file, h1]]
          at he
        exact Or.inl he
      · cases rcp with
        | none =>
          rw [show (send_file s (some t) none file).1 = s by
            simp [send_file, h1]] at he
          exact Or.inl he
        | some r =>
          by_cases h2 : (s.users.find? (fun kv => kv.fst == r)).isNone = true
          · rw [show (send_file s (some t) (some r) file).1 = s by
              simp [send_file, h1, h2]] at he
            exact Or.inl he
          · cases file with
            | none =>
              rw [show (send_file s (some t) (some r) none).1 = s by
                simp [send_file, h1, h2]] at he
              exact Or.inl he
            | some f =>
              by_cases h3 : (f.filename == "") = true
              · rw [show (send_file s (some t) (some r) (some f)).1 = s by
                  simp [send_file, h1, h2, h3]] at he
                exact Or.inl he
              · by_cases h4 : allowed_file f.filename = true
                · rw [show (send_file s (some t) (some r) (some f)).1.storage =
                      (UPLOAD_FOLDER ++ secure_filename f.filename, f.content)
                        :: s.storage by
                    simp [send_file, h1, h2, h3, h4]] at he
                  rcases List.mem_cons.mp he with hh | hh
                  · exact Or.inr ⟨f, rfl, h4, by rw [hh]⟩
                  · exact Or.inl hh
                · rw [show (send_file s (some t) (some r) (some f)).1 = s by
                    simp [send_file, h1, h2, h3, h4]] at he
                  exact Or.inl he

/-- Witness for C8: a concrete benign upload lands at
`uploads/notes.txt`, the sanitized location, and a concrete allowed name
sanitizes to something non-empty. -/
theorem sanitize_before_storage_witness :
    secure_filename "a.txt" ≠ "" ∧
    (("uploads/notes.txt", "hi") ∈ relaySys.storage ∨
      ∃ f, (some (⟨"notes.txt", "hi"⟩ : FilePart)) = some f ∧
        allowed_file f.filename = true ∧
        ("uploads/notes.txt", "hi").1 =
          UPLOAD_FOLDER ++ secure_filename f.filename) := by
  have h := sanitize_before_storage
  exact ⟨h.1 "a.txt" (by decide),
    h.2 relaySys (some "alice") (some "bob") (some ⟨"notes.txt", "hi"⟩)
      ("uploads/notes.txt", "hi") (by decide)⟩
